import Mathlib

/-!
Shallow embedding of `pubmed_script.py` (the PubMed fetch / merge / blob
pipeline) and verification of its specification claims.

Field-name correspondence between the data model of the spec and the
column names of the source: id = PMID, title = Title, authors = Authors, year = Year,
venue = Journal, abstract = Abstract.
-/

namespace Pubmed

/-- A literature record row: the six string columns of the dataset,
in the naming of the source (`PMID,Title,Authors,Year,Journal,Abstract`). -/
structure Row where
  pmid : String
  title : String
  authors : String
  year : String
  journal : String
  abstract : String
deriving DecidableEq, Repr

/-- The fixed column header written by the script
(`cols = ["PMID","Title","Authors","Year","Journal","Abstract"]`). -/
def cols : List String := ["PMID", "Title", "Authors", "Year", "Journal", "Abstract"]

/-- One CSV data line for a row, in header order (`df.to_csv`). -/
def rowToCsv (r : Row) : List String :=
  [r.pmid, r.title, r.authors, r.year, r.journal, r.abstract]

/-- pandas `drop_duplicates(subset, keep="last")`: keep a row exactly when no
later row has the same key; kept rows stay in their original order. -/
def dedupKeepLast {α κ : Type} [DecidableEq κ] (key : α → κ) : List α → List α
  | [] => []
  | a :: rest =>
      if rest.any (fun b => decide (key b = key a)) then dedupKeepLast key rest
      else a :: dedupKeepLast key rest

/-- pandas `drop_duplicates(subset)` with the default `keep="first"`: keep the
first row of each key, dropping every later row with a key seen before. -/
def dedupKeepFirst {α κ : Type} [DecidableEq κ] (key : α → κ) : List α → List α
  | [] => []
  | a :: rest =>
      a :: dedupKeepFirst key (rest.filter (fun b => decide (¬ key b = key a)))
termination_by l => l.length
decreasing_by
  simp only [List.length_cons]
  exact Nat.lt_succ_of_le (rest.length_filter_le _)

theorem mem_of_mem_dedupKeepLast {α κ : Type} [DecidableEq κ] (key : α → κ)
    (l : List α) (a : α) (h : a ∈ dedupKeepLast key l) : a ∈ l := by
  induction l with
  | nil => simp [dedupKeepLast] at h
  | cons b rest ih =>
      rw [dedupKeepLast] at h
      by_cases hb : rest.any (fun c => decide (key c = key b)) = true
      · rw [if_pos hb] at h
        exact List.mem_cons_of_mem _ (ih h)
      · rw [if_neg hb] at h
        rcases List.mem_cons.mp h with h | h
        · simp [h]
        · exact List.mem_cons_of_mem _ (ih h)

theorem mem_of_mem_dedupKeepFirst {α κ : Type} [DecidableEq κ] (key : α → κ)
    (l : List α) (a : α) (h : a ∈ dedupKeepFirst key l) : a ∈ l := by
  induction l using dedupKeepFirst.induct key with
  | case1 => simp [dedupKeepFirst] at h
  | case2 b rest ih =>
      rw [dedupKeepFirst] at h
      rcases List.mem_cons.mp h with h | h
      · simp [h]
      · exact List.mem_cons_of_mem _ (List.mem_of_mem_filter (ih h))

/-- Keep-last dedup, restricted to one key value, retains exactly the last
occurrence of that key (as a singleton) and nothing else. -/
theorem dedupKeepLast_filter_key {α κ : Type} [DecidableEq κ] (key : α → κ)
    (l : List α) (k : κ) :
    (dedupKeepLast key l).filter (fun a => decide (key a = k)) =
      ((l.filter (fun a => decide (key a = k))).getLast?).toList := by
  induction l with
  | nil => simp [dedupKeepLast]
  | cons a rest ih =>
      rw [dedupKeepLast]
      by_cases ha : rest.any (fun b => decide (key b = key a)) = true
      · rw [if_pos ha]
        by_cases hk : key a = k
        · have hne : rest.filter (fun b => decide (key b = k)) ≠ [] := by
            rcases List.any_eq_true.mp ha with ⟨b, hb, hkb⟩
            have hkb := of_decide_eq_true hkb
            intro hnil
            have : b ∈ rest.filter (fun b => decide (key b = k)) :=
              List.mem_filter.mpr ⟨hb, decide_eq_true (hkb.trans hk)⟩
            simp [hnil] at this
          rw [ih]
          have : (a :: rest).filter (fun b => decide (key b = k)) =
              a :: rest.filter (fun b => decide (key b = k)) := by
            simp [List.filter_cons, hk]
          rw [this]
          rcases List.exists_cons_of_ne_nil hne with ⟨b, t, hbt⟩
          rw [hbt, List.getLast?_cons_cons]
        · have : (a :: rest).filter (fun b => decide (key b = k)) =
              rest.filter (fun b => decide (key b = k)) := by
            simp [List.filter_cons, hk]
          rw [this, ih]
      · rw [if_neg ha]
        by_cases hk : key a = k
        · have hnil : rest.filter (fun b => decide (key b = k)) = [] := by
            rw [List.filter_eq_nil_iff]
            intro b hb
            simp only [decide_eq_true_eq]
            intro hbk
            exact ha (List.any_eq_true.mpr ⟨b, hb, decide_eq_true (hbk.trans hk.symm)⟩)
          have hd : (dedupKeepLast key rest).filter (fun b => decide (key b = k)) = [] := by
            rw [ih, hnil]
            rfl
          have : (a :: rest).filter (fun b => decide (key b = k)) =
              a :: rest.filter (fun b => decide (key b = k)) := by
            simp [List.filter_cons, hk]
          rw [List.filter_cons_of_pos (by simp [hk]), hd, this, hnil]
          rfl
        · rw [List.filter_cons_of_neg (by simp [hk]), ih]
          have : (a :: rest).filter (fun b => decide (key b = k)) =
              rest.filter (fun b => decide (key b = k)) := by
            simp [List.filter_cons, hk]
          rw [this]

/-- Keep-first dedup, restricted to one key value, retains exactly the first
occurrence of that key (as a singleton) and nothing else. -/
theorem dedupKeepFirst_filter_key {α κ : Type} [DecidableEq κ] (key : α → κ)
    (l : List α) (k : κ) :
    (dedupKeepFirst key l).filter (fun a => decide (key a = k)) =
      ((l.filter (fun a => decide (key a = k))).head?).toList := by
  induction l using dedupKeepFirst.induct key with
  | case1 => simp [dedupKeepFirst]
  | case2 a rest ih =>
      rw [dedupKeepFirst]
      by_cases hk : key a = k
      · have hnone : (dedupKeepFirst key
            (rest.filter (fun b => decide (¬ key b = key a)))).filter
              (fun b => decide (key b = k)) = [] := by
          rw [List.filter_eq_nil_iff]
          intro b hb
          have hbmem := mem_of_mem_dedupKeepFirst _ _ _ hb
          have := of_decide_eq_true (List.mem_filter.mp hbmem).2
          simp only [decide_eq_true_eq]
          intro hbk
          exact this (hbk.trans hk.symm)
        rw [List.filter_cons_of_pos (by simp [hk]), hnone]
        rw [List.filter_cons_of_pos (by simp [hk])]
        rfl
      · rw [List.filter_cons_of_neg (by simp [hk]), ih]
        have : (rest.filter (fun b => decide (¬ key b = key a))).filter
            (fun b => decide (key b = k)) =
            rest.filter (fun b => decide (key b = k)) := by
          rw [List.filter_filter]
          apply List.filter_congr
          intro b _
          by_cases hbk : key b = k
          · have hba : ¬ key b = key a := fun h => hk (h.symm.trans hbk)
            simp [hbk, hba]
            exact fun h => hk h.symm
          · simp [hbk]
        rw [this]
        have : (a :: rest).filter (fun b => decide (key b = k)) =
            rest.filter (fun b => decide (key b = k)) := by
          simp [List.filter_cons, hk]
        rw [this]

/-- Strip leading and trailing whitespace from a character list. -/
def stripChars (l : List Char) : List Char :=
  ((l.dropWhile Char.isWhitespace).reverse.dropWhile Char.isWhitespace).reverse

/-- Python `str.strip()`: remove leading and trailing whitespace. -/
def pyStrip (s : String) : String := ⟨stripChars s.data⟩

/-- Python `str.split(" ")`: split on every single space character, keeping
empty pieces (so `"".split(" ") == [""]`). -/
def pySplitSpace (s : String) : List String :=
  (s.data.splitOn ' ').map (fun l => ⟨l⟩)

/-- Python truthiness for an optional string: `None` and `""` are falsy.
`truthyD o d` is Python `o or d` for a string-or-None value `o`. -/
def truthyD (o : Option String) (d : String) : String :=
  match o with
  | none => d
  | some s => if s = "" then d else s

/-- A labeled abstract segment: a dict that may carry `"#text"`, `"_"` and
`"Label"` keys (each possibly absent). -/
structure LabeledText where
  textHash : Option String
  textUnderscore : Option String
  label : Option String
deriving DecidableEq, Repr

/-- `seg.get("#text") or seg.get("_") or ""`: the effective text of the segment. -/
def LabeledText.text (d : LabeledText) : String :=
  truthyD d.textHash (truthyD d.textUnderscore "")

/-- One element of an `AbstractText` list: a plain string or a labeled dict. -/
inductive AbsSeg where
  | plain (s : String)
  | dict (d : LabeledText)
deriving DecidableEq, Repr

/-- The shapes of the `AbstractText` value handled by `_flatten_abstract`:
a plain string, a list of segments, or a single labeled dict. A missing
`AbstractText` key is the string default `""` (`ab.get("AbstractText", "")`). -/
inductive AbstractText where
  | str (s : String)
  | list (segs : List AbsSeg)
  | dict (d : LabeledText)
deriving DecidableEq, Repr

/-- The loop body of `_flatten_abstract` over one list segment:
`seg.strip()` for a plain string, and for a dict
`f"{label}: {txt}".strip() if label else txt.strip()`. -/
def renderSeg : AbsSeg → String
  | .plain s => pyStrip s
  | .dict d =>
      let l := truthyD d.label ""
      if l = "" then pyStrip d.text else pyStrip (l ++ ": " ++ d.text)

/-- `_flatten_abstract(art)`, with `none` standing for an absent or falsy
`"Abstract"` value (`if not ab: return ""`). -/
def flatten_abstract (ab : Option AbstractText) : String :=
  match ab with
  | none => ""
  | some (.str s) => pyStrip s
  | some (.list segs) =>
      String.intercalate " " ((segs.map renderSeg).filter (fun p => p ≠ ""))
  | some (.dict d) => pyStrip d.text

/-- One author entry of `AuthorList`: optional `LastName`, `ForeName`,
`CollectiveName`. -/
structure RawAuthor where
  lastName : Option String
  foreName : Option String
  collectiveName : Option String
deriving DecidableEq, Repr

/-- One iteration of the loop in `_authors_to_str`: the (possibly empty)
display name for one author. -/
def authorName (a : RawAuthor) : String :=
  let last := truthyD a.lastName ""
  let fore := truthyD a.foreName ""
  let last := if last = "" ∧ fore = "" then (a.collectiveName.getD "") else last
  pyStrip (String.intercalate " " ([fore, last].filter (fun x => x ≠ "")))

/-- `_authors_to_str`: comma-join the nonempty author names. -/
def authors_to_str (l : List RawAuthor) : String :=
  String.intercalate ", " ((l.map authorName).filter (fun nm => nm ≠ ""))

/-- The fields of one parsed PubMed record that the row-building loop of
`fetch_pubmed_full` reads (nested dict lookups flattened into one structure;
`none` stands for an absent or falsy value at that path). `pmid` holds
`str(med.get("PMID", ""))`. -/
structure PubmedRecord where
  pmid : String
  articleTitle : Option String
  journalTitle : Option String
  pubDateYear : Option String
  pubDateMedlineDate : Option String
  authorList : List RawAuthor
  abstract : Option AbstractText
deriving DecidableEq, Repr

/-- The row-building loop body of `fetch_pubmed_full` (lines 69-81):
derives the six row fields from one record. -/
def normalizeRecord (r : PubmedRecord) : Row :=
  { pmid := pyStrip r.pmid
    title := pyStrip (truthyD r.articleTitle "")
    authors := authors_to_str r.authorList
    year :=
      let y := truthyD r.pubDateYear
        ((pySplitSpace (truthyD r.pubDateMedlineDate "")).headD "")
      if y = "" then "N/A" else y
    journal := pyStrip (truthyD r.journalTitle "")
    abstract := flatten_abstract r.abstract }

/-- `merge_csvs` on the row lists of the two input files (an absent or
nonexistent previous file reads as the empty list): concatenate old then new,
split on nonempty `PMID`, dedup each group keeping the last occurrence
(by `PMID`, resp. by `(Title, Year)`), then concatenate the groups. -/
def merge_csvs (old_rows new_rows : List Row) : List Row :=
  let combined := old_rows ++ new_rows
  let d1 := dedupKeepLast (fun r => r.pmid)
    (combined.filter (fun r => decide (r.pmid.length > 0)))
  let d2 := dedupKeepLast (fun r => (r.title, r.year))
    (combined.filter (fun r => ! decide (r.pmid.length > 0)))
  d1 ++ d2

/-- The outcome of the backend call `bc.download_blob().readall()`:
the bytes of the blob, a not-found error, or any other backend error. -/
inductive BlobDownload where
  | content (bytes : List Nat)
  | notFoundError
  | otherError (msg : String)
deriving DecidableEq, Repr

/-- A local filesystem: an association of paths to byte contents. -/
def FS : Type := List (String × List Nat)

/-- Create or truncate-and-write the file at `p` (what `open(p, "wb")`
followed by writing `b` leaves behind). -/
def setFile (fs : FS) (p : String) (b : List Nat) : FS :=
  (p, b) :: List.filter (fun e => ! decide (e.1 = p)) fs

/-- The bytes of the file at `p`, if present. -/
def readFile (fs : FS) (p : String) : Option (List Nat) :=
  (List.find? (fun e => decide (e.1 = p)) fs).map (fun e => e.2)

/-- Paths in this model are taken as already canonical, so `os.path.abspath`
is the identity on them. -/
def abspath (p : String) : String := p

/-- `download_existing_blob`: open `local_path` for writing (truncating it),
then ask the backend for the blob. On success write the bytes and return the
path; on `ResourceNotFoundError` return `None`; any other error propagates
(modelled as `Except.error`). The truncation happens before the backend call,
inside the `try`. -/
def download_existing_blob (blob : BlobDownload) (local_path : String)
    (fs : FS) : FS × Except String (Option String) :=
  let fs1 := setFile fs local_path []
  match blob with
  | .content b => (setFile fs1 local_path b, .ok (some (abspath local_path)))
  | .notFoundError => (fs1, .ok none)
  | .otherError m => (fs1, .error m)

/-- The externally visible events of one `fetch_pubmed_full` run: the
`esearch` call, each `efetch` batch call, and each `time.sleep`, whose
duration is recorded in hundredths of a time unit (`time.sleep(0.34)`
records `sleep 34`). -/
inductive FetchEvent where
  | search
  | fetchBatch (chunk : List String)
  | sleep (centis : Nat)
deriving DecidableEq, Repr

/-- `for i in range(0, len(ids), 200): chunk = ids[i:i+200]`:
the successive 200-element slices of the id list. -/
def chunks200 (l : List String) : List (List String) :=
  if l = [] then [] else l.take 200 :: chunks200 (l.drop 200)
termination_by l.length
decreasing_by
  rename_i h
  have : 0 < l.length := List.length_pos.mpr h
  simp only [List.length_drop]
  omega

/-- The result of one `fetch_pubmed_full` run: its event trace, the data
rows written to the output file (the written file is the header `cols`
followed by `rows.map rowToCsv`), and the returned path. -/
structure FetchResult where
  events : List FetchEvent
  rows : List Row
  path : String
deriving DecidableEq, Repr

/-- The normalized rows of a run, before deduplication: each 200-id chunk is
fetched (`recsOf` models `Entrez.read` of the `efetch` response for that
chunk), the per-chunk record lists are concatenated (`recs.extend`), and the
row-building loop maps over the concatenation. -/
def fetchedRows (ids : List String) (recsOf : List String → List PubmedRecord) :
    List Row :=
  (((chunks200 ids).map recsOf).flatten).map normalizeRecord

/-- `fetch_pubmed_full` given the search result `ids` and the batch-fetch
behaviour `recsOf`. With no ids, write a header-only file and return.
Otherwise fetch chunk by chunk, sleeping 0.34 after each batch, normalize,
deduplicate by `PMID` with the pandas default keep-first, and write. -/
def fetch_pubmed_full (ids : List String)
    (recsOf : List String → List PubmedRecord) (out_path : String) :
    FetchResult :=
  if ids = [] then
    { events := [.search], rows := [], path := abspath out_path }
  else
    { events := .search ::
        ((chunks200 ids).map (fun c => [FetchEvent.fetchBatch c, .sleep 34])).flatten
      rows := dedupKeepFirst (fun r => r.pmid) (fetchedRows ids recsOf)
      path := abspath out_path }

/-- The number of sleep events in a trace. -/
def countSleeps (events : List FetchEvent) : Nat :=
  (events.filter (fun e => match e with | .sleep _ => true | _ => false)).length

/-- The dataset file written by a fetch run: the header, then one CSV line
per kept row. -/
def fetchFile (res : FetchResult) : List (List String) :=
  cols :: res.rows.map rowToCsv

/-! Helper lemmas about `String.intercalate`, the embedding of
`" ".join(...)`. -/

theorem intercalate_go_acc (s : String) (zs : List String) :
    ∀ a b : String, String.intercalate.go (a ++ b) s zs =
      a ++ String.intercalate.go b s zs := by
  induction zs with
  | nil => intro a b; rfl
  | cons z zs ih =>
      intro a b
      show String.intercalate.go (a ++ b ++ s ++ z) s zs =
        a ++ String.intercalate.go (b ++ s ++ z) s zs
      have : a ++ b ++ s ++ z = a ++ (b ++ s ++ z) := by
        simp [String.append_assoc]
      rw [this, ih]

theorem intercalate_cons_cons (x y : String) (zs : List String) :
    String.intercalate " " (x :: y :: zs) =
      x ++ " " ++ String.intercalate " " (y :: zs) := by
  show String.intercalate.go (x ++ " " ++ y) " " zs =
    x ++ " " ++ String.intercalate.go y " " zs
  rw [intercalate_go_acc]

/-! ## Spec-side definitions

These follow the wording of the claims of the specification, for comparison
against the source-derived definitions above. -/

/-- Modelled from the words of the claim: the per-segment rendering of an
abstract segment — `"Label: text"` for a labeled segment, the text itself
for a plain segment. -/
def claimRenderSeg : AbsSeg → String
  | .plain s => s
  | .dict d =>
      let l := truthyD d.label ""
      if l = "" then d.text else l ++ ": " ++ d.text

/-- Modelled from the words of the claim: the space-joined sequence of the
per-segment renderings, in the original segment order. -/
def claimJoined (segs : List AbsSeg) : String :=
  String.intercalate " " (segs.map claimRenderSeg)

/-- The joined form of the amended claim: space-join the per-segment renderings in
the original order, where every rendering is whitespace-trimmed and empty
renderings are omitted from the join. -/
def claimJoinedTrimmed : List AbsSeg → String
  | [] => ""
  | s :: rest =>
      let r := pyStrip (claimRenderSeg s)
      let t := claimJoinedTrimmed rest
      if r = "" then t else if t = "" then r else r ++ " " ++ t

theorem renderSeg_eq_trim_claimRender (s : AbsSeg) :
    renderSeg s = pyStrip (claimRenderSeg s) := by
  cases s with
  | plain s => rfl
  | dict d =>
      show renderSeg (.dict d) = pyStrip (claimRenderSeg (.dict d))
      rw [renderSeg, claimRenderSeg]
      by_cases h : truthyD d.label "" = "" <;> simp [h]

theorem eq_empty_of_length_zero (s : String) (h : s.length = 0) : s = "" := by
  cases s with
  | mk data =>
      have hd : data.length = 0 := h
      have : data = [] := List.length_eq_zero.mp hd
      rw [this]

theorem length_pos_of_ne_empty (s : String) (h : s ≠ "") : 0 < s.length := by
  cases Nat.eq_zero_or_pos s.length with
  | inr h1 => exact h1
  | inl h0 => exact absurd (eq_empty_of_length_zero s h0) h

theorem intercalate_go_length (s : String) (zs : List String) :
    ∀ acc : String, acc.length ≤ (String.intercalate.go acc s zs).length := by
  induction zs with
  | nil => intro acc; exact Nat.le_refl _
  | cons z zs ih =>
      intro acc
      have h1 : acc.length ≤ (acc ++ s ++ z).length := by
        simp [String.length_append]
        omega
      exact Nat.le_trans h1 (ih (acc ++ s ++ z))

theorem intercalate_ne_empty (x : String) (xs : List String) (h : x ≠ "") :
    String.intercalate " " (x :: xs) ≠ "" := by
  intro hcontra
  have h1 : x.length ≤ (String.intercalate " " (x :: xs)).length :=
    intercalate_go_length " " xs x
  rw [hcontra] at h1
  exact Nat.not_lt.mpr h1 (length_pos_of_ne_empty x h)

/-- Space-join the nonempty strings of a list, in order. -/
def joinNonempty : List String → String
  | [] => ""
  | p :: rest =>
      let t := joinNonempty rest
      if p = "" then t else if t = "" then p else p ++ " " ++ t

theorem intercalate_filter_ne (parts : List String) :
    String.intercalate " " (parts.filter (fun p => p ≠ "")) =
      joinNonempty parts := by
  induction parts with
  | nil => rfl
  | cons p rest ih =>
      rw [joinNonempty]
      by_cases hp : p = ""
      · rw [List.filter_cons_of_neg (by simp [hp])]
        simp only [hp, if_pos rfl]
        exact ih
      · rw [List.filter_cons_of_pos (by simp [hp]), if_neg hp]
        cases hrest : rest.filter (fun p => decide (p ≠ "")) with
        | nil =>
            have ht : joinNonempty rest = "" := by
              rw [← ih, hrest]
              rfl
            rw [ht, if_pos rfl]
            rfl
        | cons x xs =>
            have hx : x ≠ "" := by
              have : x ∈ rest.filter (fun p => decide (p ≠ "")) := by
                rw [hrest]
                exact List.mem_cons_self _ _
              exact of_decide_eq_true (List.mem_filter.mp this).2
            have ht : joinNonempty rest = String.intercalate " " (x :: xs) := by
              rw [← ih, hrest]
            rw [ht, if_neg (intercalate_ne_empty x xs hx),
              intercalate_cons_cons]

theorem claimJoinedTrimmed_eq_joinNonempty (segs : List AbsSeg) :
    claimJoinedTrimmed segs = joinNonempty (segs.map renderSeg) := by
  induction segs with
  | nil => rfl
  | cons s rest ih =>
      rw [claimJoinedTrimmed, List.map_cons, joinNonempty,
        ← renderSeg_eq_trim_claimRender, ih]

/-- C8 (amended): for every abstract given as a list of segments, the
flattened abstract equals the space-joined sequence of the per-segment
renderings — `"Label: text"` for a labeled segment, the text itself for a
plain segment — in the original segment order, where each rendering is
whitespace-trimmed and empty renderings are omitted from the join. -/
theorem flatten_list_is_trimmed_join (segs : List AbsSeg) :
    flatten_abstract (some (AbstractText.list segs)) = claimJoinedTrimmed segs := by
  show String.intercalate " " ((segs.map renderSeg).filter (fun p => p ≠ "")) = _
  rw [intercalate_filter_ne, claimJoinedTrimmed_eq_joinNonempty]

/-- C8 counterexample: on the segment list `["a", " ", " b "]` the flattened
abstract is `"a b"`, while the space-join of the raw per-segment renderings
(the value the claim states) is not: the code trims each rendering and omits
empty ones, which the claim as stated does not account for. -/
theorem flatten_list_counterexample :
    flatten_abstract (some (AbstractText.list
      [AbsSeg.plain "a", AbsSeg.plain " ", AbsSeg.plain " b "])) = "a b" ∧
    claimJoined [AbsSeg.plain "a", AbsSeg.plain " ", AbsSeg.plain " b "] ≠ "a b" := by
  constructor
  · decide
  · decide

/-- C10: when the `AbstractText` value is a single labeled segment (a lone
dict rather than a list), the flattened abstract is just the stripped segment
text and the `Label` is discarded — unlike the list case, where the same
labeled segment renders as `"Label: text"`. -/
theorem flatten_lone_dict_discards_label (d : LabeledText) :
    flatten_abstract (some (AbstractText.dict d)) = pyStrip d.text ∧
    flatten_abstract (some (AbstractText.dict ⟨some "text", none, some "Label"⟩)) = "text" ∧
    flatten_abstract (some (AbstractText.list
      [AbsSeg.dict ⟨some "text", none, some "Label"⟩])) = "Label: text" := by
  refine ⟨rfl, by decide, by decide⟩

/-- C5: `download_existing_blob` returns the distinguished absent signal
(`none`, not an error) exactly when the blob does not exist; a successful
download returns the absolute local path, and any other backend error
propagates uncaught. -/
theorem download_absent_signal (local_path : String) (fs : FS) :
    (download_existing_blob .notFoundError local_path fs).2 = .ok none ∧
    (∀ b, (download_existing_blob (.content b) local_path fs).2 =
      .ok (some (abspath local_path))) ∧
    (∀ m, (download_existing_blob (.otherError m) local_path fs).2 = .error m) :=
  ⟨rfl, fun _ => rfl, fun _ => rfl⟩

/-- C9: when the blob does not exist, `download_existing_blob` still leaves a
zero-byte file at the local destination (the `open(local_path, "wb")`
truncation happens before the failing backend read), so the absent outcome is
not side-effect free on the local filesystem. -/
theorem download_absent_truncates (local_path : String) (fs : FS) :
    readFile (download_existing_blob .notFoundError local_path fs).1 local_path =
      some [] ∧
    (download_existing_blob .notFoundError local_path fs).2 = .ok none := by
  constructor
  · simp [download_existing_blob, readFile, setFile, List.find?]
  · rfl

/-- C6: when the search returns zero identifiers, `fetch_pubmed_full` writes
a dataset file consisting of exactly the header row
(`PMID,Title,Authors,Year,Journal,Abstract`, in the spec named
id/title/authors/year/venue/abstract) with no data rows, and returns the
absolute output path. -/
theorem fetch_zero_ids (ids : List String)
    (recsOf : List String → List PubmedRecord) (out_path : String)
    (h : ids = []) :
    fetchFile (fetch_pubmed_full ids recsOf out_path) = [cols] ∧
    (fetch_pubmed_full ids recsOf out_path).path = abspath out_path := by
  subst h
  exact ⟨rfl, rfl⟩

/-- Witness for C6 at a concrete run. -/
theorem fetch_zero_ids_witness :
    ([] : List String) = [] ∧
    fetchFile (fetch_pubmed_full [] (fun _ => []) "pubmed_new.csv") = [cols] ∧
    (fetch_pubmed_full [] (fun _ => []) "pubmed_new.csv").path =
      abspath "pubmed_new.csv" :=
  ⟨rfl, (fetch_zero_ids [] (fun _ => []) "pubmed_new.csv" rfl).1,
    (fetch_zero_ids [] (fun _ => []) "pubmed_new.csv" rfl).2⟩

/-! ## Merge Engine claims -/

/-- Rows kept by the empty-id branch of a merge never satisfy a filter on a
nonempty pmid value. -/
theorem emptyGroup_filter_pmid (combined : List Row) (i : String) (hi : i ≠ "") :
    (dedupKeepLast (fun r => (r.title, r.year))
      (combined.filter (fun r => ! decide (r.pmid.length > 0)))).filter
        (fun x => decide (x.pmid = i)) = [] := by
  rw [List.filter_eq_nil_iff]
  intro x hx
  have hxc := mem_of_mem_dedupKeepLast _ _ _ hx
  have hxp := (List.mem_filter.mp hxc).2
  rw [Bool.not_eq_true'] at hxp
  have hxe : x.pmid = "" :=
    eq_empty_of_length_zero _ (Nat.eq_zero_of_not_pos (of_decide_eq_false hxp))
  simp only [decide_eq_true_eq]
  intro hxi
  exact hi (hxi ▸ hxe)

/-- Filtering the nonempty-id group on one nonempty pmid value is the same
as filtering the whole concatenation on that value. -/
theorem idGroup_filter_pmid (combined : List Row) (i : String) (hi : i ≠ "") :
    (combined.filter (fun r => decide (r.pmid.length > 0))).filter
        (fun x => decide (x.pmid = i)) =
      combined.filter (fun x => decide (x.pmid = i)) := by
  rw [List.filter_filter]
  apply List.filter_congr
  intro x _
  by_cases hxi : x.pmid = i
  · have hpos : 0 < i.length := length_pos_of_ne_empty i hi
    simp [hxi, hpos]
  · simp [hxi]

/-- C1: in `merge_csvs`, among the concatenated rows with a given nonempty
id that occurs in both inputs, exactly one row survives in the merged
output: the positionally last row with that id in old-then-new order (so a
fresh row supersedes a previous row with the same id). -/
theorem merge_nonempty_id_last_wins (old_rows new_rows : List Row) (i : String)
    (hi : i ≠ "")
    (_hold : ∃ r ∈ old_rows, r.pmid = i) (hnew : ∃ r ∈ new_rows, r.pmid = i) :
    ∃ r, ((old_rows ++ new_rows).filter (fun x => decide (x.pmid = i))).getLast? =
        some r ∧
      (merge_csvs old_rows new_rows).filter (fun x => decide (x.pmid = i)) = [r] := by
  obtain ⟨rn, hrn, hrnp⟩ := hnew
  have hmerge : merge_csvs old_rows new_rows =
      dedupKeepLast (fun r => r.pmid)
        ((old_rows ++ new_rows).filter (fun r => decide (r.pmid.length > 0))) ++
      dedupKeepLast (fun r => (r.title, r.year))
        ((old_rows ++ new_rows).filter (fun r => ! decide (r.pmid.length > 0))) := rfl
  have h1 : (dedupKeepLast (fun r => r.pmid)
      ((old_rows ++ new_rows).filter (fun r => decide (r.pmid.length > 0)))).filter
        (fun x => decide (x.pmid = i)) =
      (((old_rows ++ new_rows).filter (fun x => decide (x.pmid = i))).getLast?).toList := by
    have h := dedupKeepLast_filter_key (fun r : Row => r.pmid)
      ((old_rows ++ new_rows).filter (fun r => decide (r.pmid.length > 0))) i
    rw [idGroup_filter_pmid _ _ hi] at h
    exact h
  have hne : (old_rows ++ new_rows).filter (fun x => decide (x.pmid = i)) ≠ [] := by
    intro h0
    have : rn ∈ (old_rows ++ new_rows).filter (fun x => decide (x.pmid = i)) :=
      List.mem_filter.mpr ⟨List.mem_append_right _ hrn, decide_eq_true hrnp⟩
    rw [h0] at this
    exact (List.not_mem_nil rn) this
  obtain ⟨r, hr⟩ : ∃ r,
      ((old_rows ++ new_rows).filter (fun x => decide (x.pmid = i))).getLast? = some r := by
    cases hl : ((old_rows ++ new_rows).filter (fun x => decide (x.pmid = i))).getLast? with
    | some r => exact ⟨r, rfl⟩
    | none => exact absurd (List.getLast?_eq_none_iff.mp hl) hne
  refine ⟨r, hr, ?_⟩
  rw [hmerge, List.filter_append, h1, emptyGroup_filter_pmid _ _ hi, hr,
    List.append_nil]
  rfl

/-- Witness for C1: the example given in the spec, a previous row with id "1" and a
fresh revision of it. -/
theorem merge_nonempty_id_last_wins_witness :
    ("1" : String) ≠ "" ∧
    (∃ r ∈ [Row.mk "1" "X" "" "2020" "" ""], r.pmid = "1") ∧
    (∃ r ∈ [Row.mk "1" "X-revised" "" "2020" "" ""], r.pmid = "1") ∧
    (∃ r, (([Row.mk "1" "X" "" "2020" "" ""] ++
        [Row.mk "1" "X-revised" "" "2020" "" ""]).filter
          (fun x => decide (x.pmid = "1"))).getLast? = some r ∧
      (merge_csvs [Row.mk "1" "X" "" "2020" "" ""]
          [Row.mk "1" "X-revised" "" "2020" "" ""]).filter
        (fun x => decide (x.pmid = "1")) = [r]) :=
  ⟨by decide, by decide, by decide,
    merge_nonempty_id_last_wins [Row.mk "1" "X" "" "2020" "" ""]
      [Row.mk "1" "X-revised" "" "2020" "" ""] "1"
      (by decide) (by decide) (by decide)⟩

/-- A list made of a block of nonempty-pmid rows followed by a block of
empty-pmid rows equals its own pmid-partition in that order. -/
theorem append_filter_split (d1 d2 : List Row)
    (ha : ∀ x ∈ d1, decide (x.pmid.length > 0) = true)
    (hb : ∀ x ∈ d2, (! decide (x.pmid.length > 0)) = true) :
    d1 ++ d2 = (d1 ++ d2).filter (fun r => decide (r.pmid.length > 0)) ++
      (d1 ++ d2).filter (fun r => ! decide (r.pmid.length > 0)) := by
  have h1 : d2.filter (fun r => decide (r.pmid.length > 0)) = [] := by
    rw [List.filter_eq_nil_iff]
    intro x hx
    have := hb x hx
    rw [Bool.not_eq_true'] at this
    simp [this]
  have h2 : d1.filter (fun r => ! decide (r.pmid.length > 0)) = [] := by
    rw [List.filter_eq_nil_iff]
    intro x hx
    have := ha x hx
    simp [this]
  rw [List.filter_append, List.filter_append, List.filter_eq_self.mpr ha,
    List.filter_eq_self.mpr hb, h1, h2, List.append_nil, List.nil_append]

/-- Rows kept by the nonempty-id branch of a merge never satisfy a filter
requiring an empty pmid. -/
theorem idGroup_filter_empty (combined : List Row) (t y : String) :
    (dedupKeepLast (fun r => r.pmid)
      (combined.filter (fun r => decide (r.pmid.length > 0)))).filter
        (fun x => decide (x.pmid = "" ∧ x.title = t ∧ x.year = y)) = [] := by
  rw [List.filter_eq_nil_iff]
  intro x hx
  have hxc := mem_of_mem_dedupKeepLast _ _ _ hx
  have hxp := (List.mem_filter.mp hxc).2
  have hpos : 0 < x.pmid.length := of_decide_eq_true hxp
  simp only [decide_eq_true_eq]
  intro hcon
  rw [hcon.1] at hpos
  exact Nat.lt_irrefl 0 hpos

/-- C4: in `merge_csvs`, rows with an empty id are deduplicated by
`(Title, Year)` keeping the positionally last occurrence: when both inputs
contain an empty-id row with the same title and year, exactly one such row
survives and it is the last one in old-then-new order. Moreover the merged
output lists all nonempty-id rows first, then all empty-id rows. -/
theorem merge_empty_id_last_wins (old_rows new_rows : List Row) (t y : String)
    (_hold : ∃ r ∈ old_rows, r.pmid = "" ∧ r.title = t ∧ r.year = y)
    (hnew : ∃ r ∈ new_rows, r.pmid = "" ∧ r.title = t ∧ r.year = y) :
    (∃ r, ((old_rows ++ new_rows).filter
        (fun x => decide (x.pmid = "" ∧ x.title = t ∧ x.year = y))).getLast? =
          some r ∧
      (merge_csvs old_rows new_rows).filter
        (fun x => decide (x.pmid = "" ∧ x.title = t ∧ x.year = y)) = [r]) ∧
    merge_csvs old_rows new_rows =
      (merge_csvs old_rows new_rows).filter (fun r => decide (r.pmid.length > 0)) ++
      (merge_csvs old_rows new_rows).filter (fun r => ! decide (r.pmid.length > 0)) := by
  obtain ⟨rn, hrn, hrnp⟩ := hnew
  have hmerge : merge_csvs old_rows new_rows =
      dedupKeepLast (fun r => r.pmid)
        ((old_rows ++ new_rows).filter (fun r => decide (r.pmid.length > 0))) ++
      dedupKeepLast (fun r => (r.title, r.year))
        ((old_rows ++ new_rows).filter (fun r => ! decide (r.pmid.length > 0))) := rfl
  have hfilter2 : ∀ l : List Row,
      (dedupKeepLast (fun r : Row => (r.title, r.year))
        (l.filter (fun r => ! decide (r.pmid.length > 0)))).filter
          (fun x => decide (x.pmid = "" ∧ x.title = t ∧ x.year = y)) =
      (l.filter (fun x =>
        decide (x.pmid = "" ∧ x.title = t ∧ x.year = y))).getLast?.toList := by
    intro l
    have hcongr1 : ∀ m : List Row,
        (dedupKeepLast (fun r : Row => (r.title, r.year))
            (l.filter (fun r => ! decide (r.pmid.length > 0)))).filter
          (fun x => decide (x.pmid = "" ∧ x.title = t ∧ x.year = y)) =
        (dedupKeepLast (fun r : Row => (r.title, r.year))
            (l.filter (fun r => ! decide (r.pmid.length > 0)))).filter
          (fun x => decide ((x.title, x.year) = (t, y))) := by
      intro m
      apply List.filter_congr
      intro x hx
      have hxc := mem_of_mem_dedupKeepLast _ _ _ hx
      have hxp := (List.mem_filter.mp hxc).2
      rw [Bool.not_eq_true'] at hxp
      have hxe : x.pmid = "" :=
        eq_empty_of_length_zero _ (Nat.eq_zero_of_not_pos (of_decide_eq_false hxp))
      simp [hxe, Prod.ext_iff]
    have hcongr2 : (l.filter (fun r => ! decide (r.pmid.length > 0))).filter
          (fun x => decide ((x.title, x.year) = (t, y))) =
        l.filter (fun x => decide (x.pmid = "" ∧ x.title = t ∧ x.year = y)) := by
      rw [List.filter_filter]
      apply List.filter_congr
      intro x _
      by_cases hxe : x.pmid = ""
      · have h0 : x.pmid.length = 0 := by rw [hxe]; rfl
        simp [hxe, h0, Prod.ext_iff]
      · have hpos : 0 < x.pmid.length := length_pos_of_ne_empty _ hxe
        simp [hxe, hpos]
    rw [hcongr1 l]
    have h := dedupKeepLast_filter_key (fun r : Row => (r.title, r.year))
      (l.filter (fun r => ! decide (r.pmid.length > 0))) (t, y)
    rw [hcongr2] at h
    exact h
  constructor
  · have hne : (old_rows ++ new_rows).filter
        (fun x => decide (x.pmid = "" ∧ x.title = t ∧ x.year = y)) ≠ [] := by
      intro h0
      have : rn ∈ (old_rows ++ new_rows).filter
          (fun x => decide (x.pmid = "" ∧ x.title = t ∧ x.year = y)) :=
        List.mem_filter.mpr ⟨List.mem_append_right _ hrn, decide_eq_true hrnp⟩
      rw [h0] at this
      exact (List.not_mem_nil rn) this
    obtain ⟨r, hr⟩ : ∃ r, ((old_rows ++ new_rows).filter
        (fun x => decide (x.pmid = "" ∧ x.title = t ∧ x.year = y))).getLast? =
          some r := by
      cases hl : ((old_rows ++ new_rows).filter
          (fun x => decide (x.pmid = "" ∧ x.title = t ∧ x.year = y))).getLast? with
      | some r => exact ⟨r, rfl⟩
      | none => exact absurd (List.getLast?_eq_none_iff.mp hl) hne
    refine ⟨r, hr, ?_⟩
    rw [hmerge, List.filter_append, idGroup_filter_empty, hfilter2, hr]
    rfl
  · have ha : ∀ x ∈ dedupKeepLast (fun r : Row => r.pmid)
        ((old_rows ++ new_rows).filter (fun r => decide (r.pmid.length > 0))),
        decide (x.pmid.length > 0) = true := by
      intro x hx
      exact (List.mem_filter.mp (mem_of_mem_dedupKeepLast _ _ _ hx)).2
    have hb : ∀ x ∈ dedupKeepLast (fun r : Row => (r.title, r.year))
        ((old_rows ++ new_rows).filter (fun r => ! decide (r.pmid.length > 0))),
        (! decide (x.pmid.length > 0)) = true := by
      intro x hx
      exact (List.mem_filter.mp (mem_of_mem_dedupKeepLast _ _ _ hx)).2
    rw [hmerge]
    exact append_filter_split _ _ ha hb

/-- Witness for C4: the example given in the spec, two empty-id rows sharing
title "A Study" and year "2019". -/
theorem merge_empty_id_last_wins_witness :
    (∃ r ∈ [Row.mk "" "A Study" "A. Author" "2019" "" ""],
      r.pmid = "" ∧ r.title = "A Study" ∧ r.year = "2019") ∧
    (∃ r ∈ [Row.mk "" "A Study" "B. Lee" "2019" "" ""],
      r.pmid = "" ∧ r.title = "A Study" ∧ r.year = "2019") ∧
    ((∃ r, (([Row.mk "" "A Study" "A. Author" "2019" "" ""] ++
        [Row.mk "" "A Study" "B. Lee" "2019" "" ""]).filter
          (fun x => decide (x.pmid = "" ∧ x.title = "A Study" ∧ x.year = "2019"))).getLast? =
            some r ∧
      (merge_csvs [Row.mk "" "A Study" "A. Author" "2019" "" ""]
          [Row.mk "" "A Study" "B. Lee" "2019" "" ""]).filter
        (fun x => decide (x.pmid = "" ∧ x.title = "A Study" ∧ x.year = "2019")) = [r]) ∧
    merge_csvs [Row.mk "" "A Study" "A. Author" "2019" "" ""]
        [Row.mk "" "A Study" "B. Lee" "2019" "" ""] =
      (merge_csvs [Row.mk "" "A Study" "A. Author" "2019" "" ""]
          [Row.mk "" "A Study" "B. Lee" "2019" "" ""]).filter
        (fun r => decide (r.pmid.length > 0)) ++
      (merge_csvs [Row.mk "" "A Study" "A. Author" "2019" "" ""]
          [Row.mk "" "A Study" "B. Lee" "2019" "" ""]).filter
        (fun r => ! decide (r.pmid.length > 0))) :=
  ⟨by decide, by decide,
    merge_empty_id_last_wins [Row.mk "" "A Study" "A. Author" "2019" "" ""]
      [Row.mk "" "A Study" "B. Lee" "2019" "" ""] "A Study" "2019"
      (by decide) (by decide)⟩

/-- C2 counterexample: merging a dataset with itself is not set-preserving
for every dataset. With `A = [{id "1", title "A"}, {id "1", title "B"}]`
(two distinct rows sharing id "1"), the row with title "A" belongs to `A`
but not to `merge_csvs A A`, so `merge(A, A)` is not set-equal to `A`. -/
theorem merge_self_counterexample :
    (Row.mk "1" "A" "" "" "" "") ∈
      [Row.mk "1" "A" "" "" "" "", Row.mk "1" "B" "" "" "" ""] ∧
    (Row.mk "1" "A" "" "" "" "") ∉
      merge_csvs [Row.mk "1" "A" "" "" "" "", Row.mk "1" "B" "" "" "" ""]
        [Row.mk "1" "A" "" "" "" "", Row.mk "1" "B" "" "" "" ""] := by
  constructor
  · decide
  · decide

/-- C2 (amended): merge is idempotent on internally deduplicated datasets:
if no two distinct rows of `A` share a nonempty id, and no two distinct
empty-id rows of `A` share a `(title, year)` pair, then `merge_csvs A A` is
set-equal to `A` (same rows, ignoring order and multiplicity). -/
theorem merge_self_idempotent (A : List Row)
    (h1 : ∀ r ∈ A, ∀ s ∈ A, r.pmid = s.pmid → r.pmid ≠ "" → r = s)
    (h2 : ∀ r ∈ A, ∀ s ∈ A, r.pmid = "" → s.pmid = "" →
      r.title = s.title → r.year = s.year → r = s) :
    ∀ r, r ∈ merge_csvs A A ↔ r ∈ A := by
  intro r
  have hmerge : merge_csvs A A =
      dedupKeepLast (fun r => r.pmid)
        ((A ++ A).filter (fun r => decide (r.pmid.length > 0))) ++
      dedupKeepLast (fun r => (r.title, r.year))
        ((A ++ A).filter (fun r => ! decide (r.pmid.length > 0))) := rfl
  constructor
  · intro hr
    rw [hmerge] at hr
    rcases List.mem_append.mp hr with hr | hr
    · have := List.mem_of_mem_filter (mem_of_mem_dedupKeepLast _ _ _ hr)
      rcases List.mem_append.mp this with h | h <;> exact h
    · have := List.mem_of_mem_filter (mem_of_mem_dedupKeepLast _ _ _ hr)
      rcases List.mem_append.mp this with h | h <;> exact h
  · intro hr
    by_cases hid : r.pmid = ""
    · -- the row sits in the empty-id group
      have hmem : r ∈ (A ++ A).filter (fun x => ! decide (x.pmid.length > 0)) := by
        apply List.mem_filter.mpr
        refine ⟨List.mem_append_left _ hr, ?_⟩
        rw [hid]
        decide
      have hfmem : r ∈ ((A ++ A).filter (fun x => ! decide (x.pmid.length > 0))).filter
          (fun a => decide ((a.title, a.year) = (r.title, r.year))) :=
        List.mem_filter.mpr ⟨hmem, by simp⟩
      have hne : ((A ++ A).filter (fun x => ! decide (x.pmid.length > 0))).filter
          (fun a => decide ((a.title, a.year) = (r.title, r.year))) ≠ [] := by
        intro h0
        rw [h0] at hfmem
        exact (List.not_mem_nil r) hfmem
      obtain ⟨s, hs⟩ : ∃ s, (((A ++ A).filter (fun x => ! decide (x.pmid.length > 0))).filter
          (fun a => decide ((a.title, a.year) = (r.title, r.year)))).getLast? = some s := by
        cases hl : (((A ++ A).filter (fun x => ! decide (x.pmid.length > 0))).filter
            (fun a => decide ((a.title, a.year) = (r.title, r.year)))).getLast? with
        | some s => exact ⟨s, rfl⟩
        | none => exact absurd (List.getLast?_eq_none_iff.mp hl) hne
      have hsmem := List.mem_of_mem_getLast? hs
      have hsgrp := List.mem_filter.mp hsmem
      have hsA : s ∈ A := by
        rcases List.mem_append.mp (List.mem_of_mem_filter hsgrp.1) with h | h <;> exact h
      have hsid : s.pmid = "" := by
        have := (List.mem_filter.mp hsgrp.1).2
        rw [Bool.not_eq_true'] at this
        exact eq_empty_of_length_zero _
          (Nat.eq_zero_of_not_pos (of_decide_eq_false this))
      have hkey : (s.title, s.year) = (r.title, r.year) := of_decide_eq_true hsgrp.2
      have hsr : s = r :=
        h2 s hsA r hr hsid hid
          (congrArg Prod.fst hkey) (congrArg Prod.snd hkey)
      have hsurv := dedupKeepLast_filter_key (fun x : Row => (x.title, x.year))
        ((A ++ A).filter (fun x => ! decide (x.pmid.length > 0))) (r.title, r.year)
      rw [hs] at hsurv
      have hrd : r ∈ dedupKeepLast (fun x : Row => (x.title, x.year))
          ((A ++ A).filter (fun x => ! decide (x.pmid.length > 0))) := by
        have : r ∈ (dedupKeepLast (fun x : Row => (x.title, x.year))
            ((A ++ A).filter (fun x => ! decide (x.pmid.length > 0)))).filter
              (fun a => decide ((a.title, a.year) = (r.title, r.year))) := by
          rw [hsurv, hsr]
          exact List.mem_singleton.mpr rfl
        exact List.mem_of_mem_filter this
      rw [hmerge]
      exact List.mem_append_right _ hrd
    · -- the row sits in the nonempty-id group
      have hmem : r ∈ (A ++ A).filter (fun x => decide (x.pmid.length > 0)) := by
        apply List.mem_filter.mpr
        exact ⟨List.mem_append_left _ hr,
          decide_eq_true (length_pos_of_ne_empty _ hid)⟩
      have hfmem : r ∈ ((A ++ A).filter (fun x => decide (x.pmid.length > 0))).filter
          (fun a => decide (a.pmid = r.pmid)) :=
        List.mem_filter.mpr ⟨hmem, by simp⟩
      have hne : ((A ++ A).filter (fun x => decide (x.pmid.length > 0))).filter
          (fun a => decide (a.pmid = r.pmid)) ≠ [] := by
        intro h0
        rw [h0] at hfmem
        exact (List.not_mem_nil r) hfmem
      obtain ⟨s, hs⟩ : ∃ s, (((A ++ A).filter (fun x => decide (x.pmid.length > 0))).filter
          (fun a => decide (a.pmid = r.pmid))).getLast? = some s := by
        cases hl : (((A ++ A).filter (fun x => decide (x.pmid.length > 0))).filter
            (fun a => decide (a.pmid = r.pmid))).getLast? with
        | some s => exact ⟨s, rfl⟩
        | none => exact absurd (List.getLast?_eq_none_iff.mp hl) hne
      have hsmem := List.mem_of_mem_getLast? hs
      have hsgrp := List.mem_filter.mp hsmem
      have hsA : s ∈ A := by
        rcases List.mem_append.mp (List.mem_of_mem_filter hsgrp.1) with h | h <;> exact h
      have hkey : s.pmid = r.pmid := of_decide_eq_true hsgrp.2
      have hsr : s = r := h1 s hsA r hr hkey (fun h => hid (by rw [← hkey, h]))
      have hsurv := dedupKeepLast_filter_key (fun x : Row => x.pmid)
        ((A ++ A).filter (fun x => decide (x.pmid.length > 0))) r.pmid
      rw [hs] at hsurv
      have hrd : r ∈ dedupKeepLast (fun x : Row => x.pmid)
          ((A ++ A).filter (fun x => decide (x.pmid.length > 0))) := by
        have : r ∈ (dedupKeepLast (fun x : Row => x.pmid)
            ((A ++ A).filter (fun x => decide (x.pmid.length > 0)))).filter
              (fun a => decide (a.pmid = r.pmid)) := by
          rw [hsurv, hsr]
          exact List.mem_singleton.mpr rfl
        exact List.mem_of_mem_filter this
      rw [hmerge]
      exact List.mem_append_left _ hrd

/-- Witness for C2 (amended) on a concrete one-row dataset. -/
theorem merge_self_idempotent_witness :
    (∀ r ∈ [Row.mk "1" "X" "" "2020" "" ""], ∀ s ∈ [Row.mk "1" "X" "" "2020" "" ""],
      r.pmid = s.pmid → r.pmid ≠ "" → r = s) ∧
    (∀ r ∈ [Row.mk "1" "X" "" "2020" "" ""], ∀ s ∈ [Row.mk "1" "X" "" "2020" "" ""],
      r.pmid = "" → s.pmid = "" → r.title = s.title → r.year = s.year → r = s) ∧
    ((Row.mk "1" "X" "" "2020" "" "") ∈
        merge_csvs [Row.mk "1" "X" "" "2020" "" ""] [Row.mk "1" "X" "" "2020" "" ""] ↔
      (Row.mk "1" "X" "" "2020" "" "") ∈ [Row.mk "1" "X" "" "2020" "" ""]) :=
  ⟨by decide, by decide,
    merge_self_idempotent [Row.mk "1" "X" "" "2020" "" ""] (by decide) (by decide)
      (Row.mk "1" "X" "" "2020" "" "")⟩

/-! ## Fetcher claims -/

theorem chunks200_small (l : List String) (h : l ≠ []) (h2 : l.length ≤ 200) :
    chunks200 l = [l] := by
  rw [chunks200, if_neg h, List.drop_eq_nil_of_le h2, List.take_of_length_le h2,
    chunks200, if_pos rfl]

theorem chunks200_ne_nil (l : List String) (h : l ≠ []) : chunks200 l ≠ [] := by
  rw [chunks200, if_neg h]
  exact List.cons_ne_nil _ _

/-- C3 counterexample: a fetch whose batch yields two records with the same
nonempty id "7" (titles "A" then "B"). The positionally last normalized row
with id "7" is the "B" row, but the written dataset keeps the "A" row:
`drop_duplicates` defaults to keep-first, so the later row does not win. -/
theorem fetch_dedup_counterexample :
    (fetch_pubmed_full ["1"]
        (fun _ => [PubmedRecord.mk "7" (some "A") none none none [] none,
          PubmedRecord.mk "7" (some "B") none none none [] none])
        "pubmed_new.csv").rows = [Row.mk "7" "A" "" "N/A" "" ""] ∧
    ((fetchedRows ["1"]
        (fun _ => [PubmedRecord.mk "7" (some "A") none none none [] none,
          PubmedRecord.mk "7" (some "B") none none none [] none])).filter
      (fun x => decide (x.pmid = "7"))).getLast? = some (Row.mk "7" "B" "" "N/A" "" "") ∧
    (Row.mk "7" "A" "" "N/A" "" "") ≠ (Row.mk "7" "B" "" "N/A" "" "") := by
  have hch : chunks200 ["1"] = [["1"]] :=
    chunks200_small ["1"] (by simp) (by simp)
  have hfr : fetchedRows ["1"]
      (fun _ => [PubmedRecord.mk "7" (some "A") none none none [] none,
        PubmedRecord.mk "7" (some "B") none none none [] none]) =
      [Row.mk "7" "A" "" "N/A" "" "", Row.mk "7" "B" "" "N/A" "" ""] := by
    rw [fetchedRows, hch]
    decide
  refine ⟨?_, ?_, by decide⟩
  · show dedupKeepFirst (fun r : Row => r.pmid)
      (fetchedRows ["1"]
        (fun _ => [PubmedRecord.mk "7" (some "A") none none none [] none,
          PubmedRecord.mk "7" (some "B") none none none [] none])) = _
    rw [hfr, dedupKeepFirst]
    have hfilter : [Row.mk "7" "B" "" "N/A" "" ""].filter
        (fun b => decide (¬ b.pmid = (Row.mk "7" "A" "" "N/A" "" "").pmid)) = [] := by
      decide
    rw [hfilter, dedupKeepFirst]
  · rw [hfr]
    decide

/-- C3 (amended): within one fetch, the deduplication of the normalized rows
keeps the FIRST occurrence of each id (pandas `drop_duplicates` default):
for every record sequence and id, the unique written dataset row with that
id is the positionally first normalized row carrying it. -/
theorem fetch_dedup_first_wins (ids : List String)
    (recsOf : List String → List PubmedRecord) (out_path : String) (i : String)
    (hids : ids ≠ []) (r : Row)
    (hr : ((fetchedRows ids recsOf).filter (fun x => decide (x.pmid = i))).head? =
      some r) :
    (fetch_pubmed_full ids recsOf out_path).rows.filter
      (fun x => decide (x.pmid = i)) = [r] := by
  have hrows : (fetch_pubmed_full ids recsOf out_path).rows =
      dedupKeepFirst (fun r => r.pmid) (fetchedRows ids recsOf) := by
    simp only [fetch_pubmed_full, if_neg hids]
  rw [hrows]
  have h := dedupKeepFirst_filter_key (fun x : Row => x.pmid)
    (fetchedRows ids recsOf) i
  rw [h, hr]
  rfl

/-- Witness for C3 (amended) at the concrete fetch of the counterexample. -/
theorem fetch_dedup_first_wins_witness :
    (["1"] : List String) ≠ [] ∧
    ((fetchedRows ["1"]
        (fun _ => [PubmedRecord.mk "7" (some "A") none none none [] none,
          PubmedRecord.mk "7" (some "B") none none none [] none])).filter
      (fun x => decide (x.pmid = "7"))).head? = some (Row.mk "7" "A" "" "N/A" "" "") ∧
    (fetch_pubmed_full ["1"]
        (fun _ => [PubmedRecord.mk "7" (some "A") none none none [] none,
          PubmedRecord.mk "7" (some "B") none none none [] none])
        "pubmed_new.csv").rows.filter
      (fun x => decide (x.pmid = "7")) = [Row.mk "7" "A" "" "N/A" "" ""] := by
  have hfr : fetchedRows ["1"]
      (fun _ => [PubmedRecord.mk "7" (some "A") none none none [] none,
        PubmedRecord.mk "7" (some "B") none none none [] none]) =
      [Row.mk "7" "A" "" "N/A" "" "", Row.mk "7" "B" "" "N/A" "" ""] := by
    rw [fetchedRows, chunks200_small ["1"] (by simp) (by simp)]
    decide
  have hh : ((fetchedRows ["1"]
      (fun _ => [PubmedRecord.mk "7" (some "A") none none none [] none,
        PubmedRecord.mk "7" (some "B") none none none [] none])).filter
      (fun x => decide (x.pmid = "7"))).head? = some (Row.mk "7" "A" "" "N/A" "" "") := by
    rw [hfr]
    decide
  exact ⟨by simp, hh,
    fetch_dedup_first_wins ["1"] _ "pubmed_new.csv" "7" (by simp)
      (Row.mk "7" "A" "" "N/A" "" "") hh⟩

theorem chunks200_length (l : List String) :
    (chunks200 l).length = (l.length + 199) / 200 := by
  induction l using chunks200.induct with
  | case1 =>
      rw [chunks200, if_pos rfl]
      decide
  | case2 l hl ih =>
      rw [chunks200, if_neg hl]
      simp only [List.length_cons, ih, List.length_drop]
      have : 0 < l.length := List.length_pos.mpr hl
      omega

/-- Each fetch batch contributes exactly one sleep to the trace. -/
theorem countSleeps_blocks (chunks : List (List String)) :
    countSleeps ((chunks.map
      (fun c => [FetchEvent.fetchBatch c, FetchEvent.sleep 34])).flatten) =
      chunks.length := by
  induction chunks with
  | nil => rfl
  | cons c rest ih =>
      simp only [List.map_cons, List.flatten_cons, countSleeps, List.filter_append]
      rw [List.length_append]
      have : countSleeps ((rest.map
          (fun c => [FetchEvent.fetchBatch c, FetchEvent.sleep 34])).flatten) =
          rest.length := ih
      rw [countSleeps] at this
      rw [this, List.length_cons]
      show 1 + rest.length = rest.length + 1
      omega

/-- The per-batch event blocks end with a sleep. -/
theorem blocks_getLast (chunks : List (List String)) (h : chunks ≠ []) :
    ((chunks.map
      (fun c => [FetchEvent.fetchBatch c, FetchEvent.sleep 34])).flatten).getLast? =
      some (FetchEvent.sleep 34) := by
  induction chunks with
  | nil => exact absurd rfl h
  | cons c rest ih =>
      cases rest with
      | nil => rfl
      | cons c2 rest2 =>
          rw [List.map_cons, List.flatten_cons,
            List.getLast?_append_of_ne_nil _ (by simp)]
          exact ih (List.cons_ne_nil _ _)

/-- C7 counterexample: a run fetching a single identifier performs one batch
and then one sleep. The pause count claimed, `ceil(N/200) - 1` is `0` for
`N = 1`, yet the trace contains one sleep, and it comes after the last (and
only) batch. -/
theorem fetch_pause_counterexample :
    countSleeps (fetch_pubmed_full ["1"] (fun _ => []) "pubmed_new.csv").events = 1 ∧
    ((["1"] : List String).length + 199) / 200 - 1 = 0 ∧
    (fetch_pubmed_full ["1"] (fun _ => []) "pubmed_new.csv").events.getLast? =
      some (FetchEvent.sleep 34) := by
  have hev : (fetch_pubmed_full ["1"] (fun _ => []) "pubmed_new.csv").events =
      [FetchEvent.search, FetchEvent.fetchBatch ["1"], FetchEvent.sleep 34] := by
    show FetchEvent.search :: ((chunks200 ["1"]).map
      (fun c => [FetchEvent.fetchBatch c, FetchEvent.sleep 34])).flatten = _
    rw [chunks200_small ["1"] (by simp) (by simp)]
    rfl
  refine ⟨?_, by decide, ?_⟩
  · rw [hev]
    rfl
  · rw [hev]
    rfl

/-- C7 (amended): for every run fetching `N > 0` identifiers, the trace
starts with the search call (no pause before the first batch), contains
exactly `ceil(N/200)` sleeps — one after every batch fetch, including the
last, whose trailing event is a sleep — and every sleep lasts 0.34 time
units. -/
theorem fetch_pause_after_each_batch (ids : List String)
    (recsOf : List String → List PubmedRecord) (out_path : String)
    (hids : ids ≠ []) :
    countSleeps (fetch_pubmed_full ids recsOf out_path).events =
      (ids.length + 199) / 200 ∧
    (fetch_pubmed_full ids recsOf out_path).events.head? = some .search ∧
    (fetch_pubmed_full ids recsOf out_path).events.getLast? =
      some (FetchEvent.sleep 34) ∧
    ∀ d, FetchEvent.sleep d ∈ (fetch_pubmed_full ids recsOf out_path).events →
      d = 34 := by
  have hev : (fetch_pubmed_full ids recsOf out_path).events =
      FetchEvent.search :: ((chunks200 ids).map
        (fun c => [FetchEvent.fetchBatch c, FetchEvent.sleep 34])).flatten := by
    simp only [fetch_pubmed_full, if_neg hids]
  refine ⟨?_, ?_, ?_, ?_⟩
  · rw [hev]
    have : countSleeps (FetchEvent.search :: ((chunks200 ids).map
        (fun c => [FetchEvent.fetchBatch c, FetchEvent.sleep 34])).flatten) =
        countSleeps (((chunks200 ids).map
          (fun c => [FetchEvent.fetchBatch c, FetchEvent.sleep 34])).flatten) := by
      rw [countSleeps, countSleeps, List.filter_cons_of_neg (by decide)]
    rw [this, countSleeps_blocks, chunks200_length]
  · rw [hev]
    rfl
  · rw [hev]
    have hne : ((chunks200 ids).map
        (fun c => [FetchEvent.fetchBatch c, FetchEvent.sleep 34])).flatten ≠ [] := by
      cases hch : chunks200 ids with
      | nil => exact absurd hch (chunks200_ne_nil ids hids)
      | cons c rest => simp
    calc (FetchEvent.search :: ((chunks200 ids).map
          (fun c => [FetchEvent.fetchBatch c, FetchEvent.sleep 34])).flatten).getLast?
        = ([FetchEvent.search] ++ ((chunks200 ids).map
          (fun c => [FetchEvent.fetchBatch c, FetchEvent.sleep 34])).flatten).getLast? := rfl
      _ = (((chunks200 ids).map
          (fun c => [FetchEvent.fetchBatch c, FetchEvent.sleep 34])).flatten).getLast? :=
          List.getLast?_append_of_ne_nil _ hne
      _ = some (FetchEvent.sleep 34) :=
          blocks_getLast _ (chunks200_ne_nil ids hids)
  · intro d hd
    rw [hev] at hd
    rcases List.mem_cons.mp hd with h | h
    · exact absurd h (by simp)
    · rcases List.mem_flatten.mp h with ⟨blk, hblk, hmem⟩
      rcases List.mem_map.mp hblk with ⟨c, _, hc⟩
      rw [← hc] at hmem
      rcases List.mem_cons.mp hmem with h2 | h2
      · exact absurd h2 (by simp)
      · rcases List.mem_cons.mp h2 with h3 | h3
        · injection h3 with h4
        · exact absurd h3 (List.not_mem_nil _)

/-- Witness for C7 (amended) at a concrete two-id run. -/
theorem fetch_pause_after_each_batch_witness :
    (["1", "2"] : List String) ≠ [] ∧
    countSleeps (fetch_pubmed_full ["1", "2"] (fun _ => []) "pubmed_new.csv").events =
      ((["1", "2"] : List String).length + 199) / 200 ∧
    (fetch_pubmed_full ["1", "2"] (fun _ => []) "pubmed_new.csv").events.head? =
      some .search ∧
    (fetch_pubmed_full ["1", "2"] (fun _ => []) "pubmed_new.csv").events.getLast? =
      some (FetchEvent.sleep 34) := by
  have h := fetch_pause_after_each_batch ["1", "2"] (fun _ => []) "pubmed_new.csv"
    (by simp)
  exact ⟨by simp, h.1, h.2.1, h.2.2.1⟩

end Pubmed
